import Mathlib

/-!
Verification of the quix-streams topic-manager and dataframe core.

The Python sources under `src/quixstreams/topic_manager.py` and
`src/src/StreamingDataFrames/streamingdataframes/dataframe/dataframe.py` are
embedded shallowly below: Python dicts become association lists with
insertion-order-preserving update, fallible code returns `Except PyError`,
and in-place mutation of arguments is made visible by returning the
post-call value of the mutated argument.
-/

deriving instance DecidableEq for Except

namespace QuixStreams

/-! ### Python dict primitives

Python `dict` modelled as an insertion-ordered association list with unique
keys; `dictInsert` overwrites the value of an existing key in place (as
`d[k] = v` does) and appends a new key at the end. -/

/-- First-match lookup, `d[k]` when the key is present (`d.get(k)`). -/
def dictLookup {α : Type} (d : List (String × α)) (k : String) : Option α :=
  match d with
  | [] => none
  | (k', v) :: rest => if k' = k then some v else dictLookup rest k

/-- Python `d[k] = v`: overwrite in place, or append the new key. -/
def dictInsert {α : Type} (d : List (String × α)) (k : String) (v : α) :
    List (String × α) :=
  match d with
  | [] => [(k, v)]
  | (k', v') :: rest =>
      if k' = k then (k, v) :: rest else (k', v') :: dictInsert rest k v

/-- Python `{**d, **overrides}` seen from `d`: apply every pair of
`overrides` over `d`, later keys winning. -/
def dictUpdate {α : Type} (d overrides : List (String × α)) :
    List (String × α) :=
  overrides.foldl (fun acc p => dictInsert acc p.1 p.2) d

/-- Keep only the pairs whose key is in the allow-list. -/
def dictFilterKeys {α : Type} (d : List (String × α)) (allowed : List String) :
    List (String × α) :=
  d.filter (fun p => allowed.contains p.1)

/-- One-sided dict inclusion by key lookup. -/
def dictSubset (a b : List (String × String)) : Bool :=
  a.all (fun p => dictLookup b p.1 == some p.2)

/-- Python `dict` equality: same key-value pairs, order-insensitive. -/
def dictEqv (a b : List (String × String)) : Bool :=
  dictSubset a b && dictSubset b a

/-- Python `x or d` on an optional int: `None` and `0` are falsy. -/
def pyOrNat (x : Option Nat) (d : Nat) : Nat :=
  match x with
  | none => d
  | some n => if n = 0 then d else n

/-! ### Topic value objects

Modelled from the spec: the `TopicConfig` and `Topic` classes are imported by
`topic_manager.py` from `quixstreams.models.topics`, whose source is not
under `src/`. Spec section 3 gives their fields; spec section 4.4 gives the
two modes of `update_extra_config` ("merges `extra_config` over the default
extra-config map ... defaults apply first, explicit keys win" and "filters
the resolved base config's extra settings down to the allow-listed import
set"), and declares equality structural. -/

/-- Modelled from the spec: `TopicConfig` value object — `name`,
`num_partitions`, `replication_factor`, `extra_config` (a mapping of
broker-level settings). -/
structure TopicConfig where
  name : String
  num_partitions : Nat
  replication_factor : Nat
  extra_config : List (String × String)
deriving Repr, DecidableEq

/-- Modelled from the spec: `update_extra_config(defaults=...)` — defaults
apply first, explicit keys win. -/
def TopicConfig.updateExtraConfigDefaults (cfg : TopicConfig)
    (defaults : List (String × String)) : TopicConfig :=
  { cfg with extra_config := dictUpdate defaults cfg.extra_config }

/-- Modelled from the spec: `update_extra_config(allowed=...)` — restrict
`extra_config` to the allow-listed keys. -/
def TopicConfig.updateExtraConfigAllowed (cfg : TopicConfig)
    (allowed : List String) : TopicConfig :=
  { cfg with extra_config := dictFilterKeys cfg.extra_config allowed }

/-- Modelled from the spec: structural equality of `TopicConfig` (the
`topic != actual` comparison in `validate_topics`); `extra_config` compares
as a Python dict, order-insensitively. -/
def TopicConfig.pyEq (a b : TopicConfig) : Bool :=
  a.name == b.name && a.num_partitions == b.num_partitions &&
    a.replication_factor == b.replication_factor &&
    dictEqv a.extra_config b.extra_config

/-- Modelled from the spec: `Topic` value object — identity plus
serialization roles plus a nullable `TopicConfig`. -/
structure Topic where
  name : String
  value_serializer : Option String
  value_deserializer : Option String
  key_serializer : Option String
  key_deserializer : Option String
  topic_config : Option TopicConfig
deriving Repr, DecidableEq

/-! ### Errors

`Issue` is one entry of the issues dict pooled by `validate_topics`;
`PyError` covers the exceptions the embedded code can raise, including the
builtin `KeyError`/`IndexError`/`AttributeError` the Python would hit. -/

/-- One entry of the issues mapping of `validate_topics`: either the
`"TOPIC MISSING"` marker or the `{expected, actual}` pair. -/
inductive Issue where
  | missing
  | mismatch (expected actual : TopicConfig)
deriving Repr, DecidableEq

/-- Exceptions raised by the embedded code. -/
inductive PyError where
  | keyError (k : String)
  | indexError
  | attributeError
  | valueError (invalid : List String)
  | topicValidationError (issues : List (String × Issue))
  | missingTopicForChangelog (source changelog : String)
  | invalidApplyResultType
deriving Repr, DecidableEq

/-! ### TopicManager state and defaults (`topic_manager.py`) -/

/-- `TopicManager` mutable state: `_topics` (name-keyed) and
`_changelog_topics` (source-topic-name-keyed dict of suffix-keyed dicts). -/
structure TopicManager where
  topics : List (String × Topic)
  changelog_topics : List (String × List (String × Topic))
deriving Repr, DecidableEq

/-- `TopicManager._topic_partitions`. -/
def topicPartitionsDefault : Nat := 2

/-- `TopicManager._topic_replication`. -/
def topicReplicationDefault : Nat := 1

/-- `TopicManager._topic_extra_config_defaults`. -/
def topicExtraConfigDefaults : List (String × String) := []

/-- `TopicManager._changelog_extra_config_defaults`. -/
def changelogExtraConfigDefaults : List (String × String) :=
  [("cleanup.policy", "compact")]

/-- `TopicManager._changelog_extra_config_imports_defaults`. -/
def changelogExtraConfigImportsDefaults : List String :=
  ["retention.bytes", "retention.ms"]

/-- `dict_values(self._topics)`: the values of the topic registry
(`Topic` objects are truthy, so none is dropped by the `if d:` guard). -/
def TopicManager.topicsProp (tm : TopicManager) : List Topic :=
  tm.topics.map Prod.snd

/-- `dict_values(self._changelog_topics)`: flattened leaves of the nested
suffix dicts. -/
def TopicManager.changelogTopicsProp (tm : TopicManager) : List Topic :=
  tm.changelog_topics.flatMap (fun p => p.2.map Prod.snd)

/-- `TopicManager._topic_config_with_defaults`: fill unset numeric fields
from the class defaults (via Python `or`, so `0` also falls back), build the
`TopicConfig`, then merge the extra-config defaults under it. -/
def topicConfigWithDefaults (name : String) (num_partitions : Option Nat)
    (replication_factor : Option Nat)
    (extra_config : Option (List (String × String)))
    (extra_config_defaults : Option (List (String × String))) : TopicConfig :=
  let topic_config : TopicConfig :=
    { name := name
      num_partitions := pyOrNat num_partitions topicPartitionsDefault
      replication_factor := pyOrNat replication_factor topicReplicationDefault
      extra_config := extra_config.getD [] }
  topic_config.updateExtraConfigDefaults
    (extra_config_defaults.getD topicExtraConfigDefaults)

/-- `TopicManager._process_topic_configs`: rebuild a given config with
defaults applied, or generate a fresh one unless `auto_create_config` is
off. -/
def processTopicConfigs (name : String) (topic_config : Option TopicConfig)
    (extra_config_defaults : Option (List (String × String)))
    (auto_create_config : Bool) : Option TopicConfig :=
  match topic_config with
  | some tc =>
      some (topicConfigWithDefaults name (some tc.num_partitions)
        (some tc.replication_factor) (some tc.extra_config)
        extra_config_defaults)
  | none =>
      if auto_create_config then
        some (topicConfigWithDefaults name none none none
          extra_config_defaults)
      else
        none

/-- `TopicManager._apply_topic_prefix`: identity in the base class. -/
def applyTopicPrefixing (name : String) : String := name

/-- `TopicManager.topic`: build the `Topic` under the prefixed name and
register it with `self._topics[name] = topic` (overwriting any prior
registration of the same name). -/
def TopicManager.topic (tm : TopicManager) (name : String)
    (value_deserializer key_deserializer value_serializer key_serializer :
      Option String)
    (topic_config : Option TopicConfig) (auto_create_config : Bool) :
    TopicManager × Topic :=
  let name := applyTopicPrefixing name
  let t : Topic :=
    { name := name
      value_serializer := value_serializer
      value_deserializer := value_deserializer
      key_serializer := key_serializer
      key_deserializer := key_deserializer
      topic_config := processTopicConfigs name topic_config none
        auto_create_config }
  ({ tm with topics := dictInsert tm.topics name t }, t)

/-- `TopicManager._format_changelog_name`. -/
def formatChangelogName (consumer_group source_topic_name suffix : String) :
    String :=
  "changelog__" ++ consumer_group ++ "--" ++ source_topic_name ++ "--"
    ++ suffix

/-! ### `get_topic_configs` and the derived config views -/

/-- An element of the `Union[List[Topic], List[TopicConfig]]` arguments. -/
inductive TopicOrConfig where
  | topic (t : Topic)
  | config (c : TopicConfig)
deriving Repr, DecidableEq

/-- Python `t.name`, defined on both `Topic` and `TopicConfig`. -/
def TopicOrConfig.pyName : TopicOrConfig → String
  | .topic t => t.name
  | .config c => c.name

/-- The walrus comprehension of `get_topic_configs`:
`[topic.name for topic in topics if not topic.topic_config]`. A bare
`TopicConfig` in the list lacks the `topic_config` attribute, which Python
would surface as an `AttributeError`. -/
def topicNullConfigNames : List TopicOrConfig → Except PyError (List String)
  | [] => .ok []
  | .topic t :: rest => do
      let names ← topicNullConfigNames rest
      if t.topic_config.isNone then pure (t.name :: names)
      else pure names
  | .config _ :: _ => .error .attributeError

/-- `get_topic_configs`: dispatch on the runtime type of the first element;
in the `Topic` branch raise `ValueError` naming every topic whose config is
`None`, else return the configs. (`topics[0]` on an empty list is an
`IndexError`. Lists mixing the two element types are not modelled beyond the
attribute errors the `Topic` branch would hit.) -/
def getTopicConfigs (topics : List TopicOrConfig) :
    Except PyError (List TopicConfig) :=
  match topics with
  | [] => .error .indexError
  | first :: _ =>
    match first with
    | .topic _ =>
        match topicNullConfigNames topics with
        | .error e => .error e
        | .ok invalid =>
            if invalid.isEmpty then
              -- the emptiness of `invalid` guarantees every `topic_config`
              -- is present, so this equals the comprehension
              -- `[topic.topic_config for topic in topics]`
              .ok (topics.filterMap (fun x =>
                match x with
                | .topic t => t.topic_config
                | .config c => some c))
            else
              .error (.valueError invalid)
    | .config _ =>
        .ok (topics.filterMap (fun x =>
          match x with
          | .config c => some c
          | .topic _ => none))

/-- `TopicManager.all_topic_configs`:
`get_topic_configs(self.topics + self.changelog_topics)`. -/
def TopicManager.allTopicConfigs (tm : TopicManager) :
    Except PyError (List TopicConfig) :=
  getTopicConfigs
    ((tm.topicsProp ++ tm.changelogTopicsProp).map TopicOrConfig.topic)

/-- `TopicManager.create_all_topics`: the configs handed to the admin
collaborator's `create_topics`, or the error raised while collecting them. -/
def TopicManager.createAllTopics (tm : TopicManager) :
    Except PyError (List TopicConfig) :=
  tm.allTopicConfigs

/-! ### `validate_topics` -/

/-- The `validation_level` literal. -/
inductive ValidationLevel where
  | existsLevel
  | required
  | all
deriving Repr, DecidableEq

/-- One iteration of the `validate_topics` loop over one expected config.
`actual_configs` is the batched `inspect_topics` response. The structure
follows the source: the subscript `actual_configs[topic.name]` runs first
(raising `KeyError` when the name is absent), then the membership test
`topic.name in actual_configs` decides between comparison and the
`"TOPIC MISSING"` entry — so the missing branch is reachable only in states
the subscript has already ruled out. At comparison time a `None` actual
config hits an attribute access (`AttributeError`). -/
def validateOne (exists_only extras : Bool)
    (actual_configs : List (String × Option TopicConfig))
    (issues : List (String × Issue)) (topic : TopicConfig) :
    Except PyError (List (String × Issue)) :=
  match dictLookup actual_configs topic.name with
  | none => .error (.keyError topic.name)
  | some actual =>
    if (dictLookup actual_configs topic.name).isSome then
      if exists_only then .ok issues
      else
        match actual with
        | none => .error .attributeError
        | some actual =>
            let actual :=
              if extras then
                actual.updateExtraConfigAllowed
                  (topic.extra_config.map Prod.fst)
              else
                { actual with extra_config := topic.extra_config }
            if topic.pyEq actual then .ok issues
            else .ok (dictInsert issues topic.name (.mismatch topic actual))
    else
      .ok (dictInsert issues topic.name .missing)

/-- `TopicManager.validate_topics`. The admin collaborator is abstracted by
`inspect : String → Option TopicConfig`; per its contract
(`inspect_topics(names) -> mapping[name -> TopicConfig | null]`), the
batched response holds every requested name, mapped to `none` when the
broker lacks the topic. Issues are pooled and raised together as one
`TopicValidationError` once all topics are inspected. -/
def validateTopics (inspect : String → Option TopicConfig)
    (topics : List TopicOrConfig)
    (validation_level : Option ValidationLevel) : Except PyError Unit :=
  match validation_level with
  | none => .ok ()
  | some level =>
    let exists_only := level == .existsLevel
    let extras := level == .all
    let actual_configs : List (String × Option TopicConfig) :=
      (topics.map TopicOrConfig.pyName).map (fun n => (n, inspect n))
    match getTopicConfigs topics with
    | .error e => .error e
    | .ok cfgs =>
      match cfgs.foldlM (validateOne exists_only extras actual_configs) [] with
      | .error e => .error e
      | .ok issues =>
          if issues.isEmpty then .ok ()
          else .error (.topicValidationError issues)

/-- `TopicManager.validate_all_topics`. -/
def TopicManager.validateAllTopics (tm : TopicManager)
    (inspect : String → Option TopicConfig)
    (validation_level : Option ValidationLevel) : Except PyError Unit :=
  match tm.allTopicConfigs with
  | .error e => .error e
  | .ok cfgs =>
      validateTopics inspect (cfgs.map TopicOrConfig.config) validation_level

/-! ### `changelog_topic` -/

/-- The source-config resolution of `changelog_topic`:
`inspect_topics([s])[s] or self._topics[s].topic_config` — the broker's
description when the topic exists there (a `TopicConfig` object is truthy),
else the locally-registered `Topic`'s own config; `self._topics[s]` raises
`KeyError` when `s` was never declared. -/
def changelogSourceConfig (tm : TopicManager)
    (inspect : String → Option TopicConfig) (source_topic_name : String) :
    Except PyError (Option TopicConfig) :=
  match inspect source_topic_name with
  | some c => .ok (some c)
  | none =>
    match dictLookup tm.topics source_topic_name with
    | none => .error (.keyError source_topic_name)
    | some t => .ok t.topic_config

/-- `TopicManager.changelog_topic`. The first component is the call's
result (the updated manager and the registered changelog `Topic`, or the
exception raised); the second component is the caller's own
`configs_to_import` set as observable after the call — `discard` mutates
the set object in place, so when the caller passed a non-empty set the
caller sees the shrunken set (when the set was `None` or empty, the
rebinding to the class defaults leaves the caller's object untouched). -/
def TopicManager.changelogTopic (tm : TopicManager)
    (inspect : String → Option TopicConfig)
    (source_topic_name suffix consumer_group : String)
    (configs_to_import : Option (List String)) :
    Except PyError (TopicManager × Topic) × Option (List String) :=
  let name := formatChangelogName consumer_group source_topic_name suffix
  -- `if not configs_to_import:` — `None` and the empty set are falsy
  let importsBase :=
    match configs_to_import with
    | none => changelogExtraConfigImportsDefaults
    | some s => if s.isEmpty then changelogExtraConfigImportsDefaults else s
  -- `configs_to_import.discard("cleanup.policy")`
  let imports := importsBase.filter (fun k => k ≠ "cleanup.policy")
  let callerAfter : Option (List String) :=
    match configs_to_import with
    | none => none
    | some s => if s.isEmpty then some s else some imports
  let result : Except PyError (TopicManager × Topic) :=
    match changelogSourceConfig tm inspect source_topic_name with
    | .error e => .error e
    | .ok none =>
        .error (.missingTopicForChangelog source_topic_name name)
    | .ok (some tc) =>
        let tc := tc.updateExtraConfigAllowed imports
        let topic : Topic :=
          { name := name
            key_serializer := some "bytes"
            value_serializer := some "bytes"
            key_deserializer := some "bytes"
            value_deserializer := some "bytes"
            topic_config := processTopicConfigs name (some tc)
              (some changelogExtraConfigDefaults) true }
        -- `self._changelog_topics.setdefault(source_topic_name, {})[suffix]`
        let inner := (dictLookup tm.changelog_topics source_topic_name).getD []
        let registered :=
          dictInsert tm.changelog_topics source_topic_name
            (dictInsert inner suffix topic)
        .ok ({ tm with changelog_topics := registered }, topic)
  (result, callerAfter)

/-! ### Dataframe `apply` step
(`src/src/StreamingDataFrames/streamingdataframes/dataframe/dataframe.py`) -/

/-- A dynamically-typed Python value, as far as the `apply` step inspects
it: `isinstance(..., dict)` and `isinstance(..., list)` drive the
branches. -/
inductive PyObj where
  | pyNone
  | pyBool (b : Bool)
  | pyInt (n : Int)
  | pyStr (s : String)
  | pyDict (entries : List (String × PyObj))
  | pyList (items : List PyObj)

/-- `isinstance(x, dict)`. -/
def PyObj.isDict : PyObj → Bool
  | .pyDict _ => true
  | _ => false

/-- Modelled from the spec: the Record ("Row") value object of spec
section 3 — the `Row` class is imported from `..models`, whose source is
not under `src/`; it carries the mutable `value` plus immutable provenance
metadata, and `clone(value=...)` copies the record with the value
overridden, provenance carried through. -/
structure Row where
  value : PyObj
  key : Option String
  timestamp : Int
  headers : List (String × String)
  topicName : String
  partition : Nat
  offset : Nat

/-- Modelled from the spec: `Row.clone(value=r)`. -/
def Row.clone (row : Row) (value : PyObj) : Row :=
  { row with value := value }

/-- The outcome of one pipeline step: a single record or a branch. -/
inductive ApplyOutcome where
  | row (r : Row)
  | rows (rs : List Row)

/-- The module-level `apply(row, func, expand)` of `dataframe.py`
(the step appended by `StreamingDataFrame.apply(func, expand)`):
`None` from `func` keeps the (in-place mutated) record when its value is a
dict; a dict replaces the value wholesale; a list is a branch into cloned
records under `expand=True` and `InvalidApplyResultType` otherwise; any
other return type is `InvalidApplyResultType`. -/
def applyRow (row : Row) (func : PyObj → PyObj) (expand : Bool) :
    Except PyError ApplyOutcome :=
  let result := func row.value
  match result with
  | .pyNone =>
      -- `if result is None and isinstance(row.value, dict)`; a `None`
      -- result over a non-dict value falls through every later
      -- `isinstance` check into the final raise
      if row.value.isDict then .ok (.row row)
      else .error .invalidApplyResultType
  | .pyDict d => .ok (.row { row with value := .pyDict d })
  | .pyList items =>
      if expand then .ok (.rows (items.map (fun r => row.clone r)))
      else .error .invalidApplyResultType
  | _ => .error .invalidApplyResultType

/-! ### Pipeline
Modelled from the spec: the `Pipeline` class used by
`src/src/PythonClient/src/quixstreams/dataframes/dataframe/dataframe.py`
(its `clone` and `apply` are called by `StreamingDataFrame._clone` and
`StreamingDataFrame.apply`) is not under `src/`; spec sections 3 and 4.2
define it — an ordered sequence of steps, `apply` appending in place,
`clone` returning a new Pipeline over the same current steps such that
steps appended after cloning affect only the Pipeline that received them,
and `process` folding a record through the chain with
absent/single/branch-and-flatten semantics. In-place `apply` becomes
explicit state passing: it returns the updated Pipeline value. -/

/-- One step outcome: absence (drop), one record, or a branch. -/
inductive StepRes where
  | absent
  | one (r : Row)
  | many (rs : List Row)

/-- Modelled from the spec: the Pipeline — a name for diagnostics and the
ordered step sequence. -/
structure Pipeline where
  pname : String
  functions : List (Row → StepRes)

/-- Modelled from the spec: a fresh Pipeline with no steps. -/
def Pipeline.init (name : String) : Pipeline :=
  { pname := name, functions := [] }

/-- Modelled from the spec: `apply` appends one step to the chain. -/
def Pipeline.apply (p : Pipeline) (f : Row → StepRes) : Pipeline :=
  { p with functions := p.functions ++ [f] }

/-- Modelled from the spec: `clone` — a new Pipeline over the same current
steps; appends to either copy never reach the other. -/
def Pipeline.clone (p : Pipeline) : Pipeline :=
  { p with functions := p.functions }

/-- Modelled from the spec: the fold of `process` — absent stops the
record, a single record continues, a branch pushes each member through the
remaining steps depth-first, left to right, flattening. The empty result
list is the overall Absent. -/
def processList : List (Row → StepRes) → Row → List Row
  | [], r => [r]
  | f :: rest, r =>
    match f r with
    | .absent => []
    | .one r2 => processList rest r2
    | .many rs => rs.flatMap (fun x => processList rest x)

/-- Modelled from the spec: `Pipeline.process`. -/
def Pipeline.process (p : Pipeline) (r : Row) : List Row :=
  processList p.functions r

/-! ### Dictionary lemmas -/

theorem dictLookup_dictInsert_self {α : Type} (d : List (String × α))
    (k : String) (v : α) : dictLookup (dictInsert d k v) k = some v := by
  induction d with
  | nil => simp [dictInsert, dictLookup]
  | cons p rest ih =>
      by_cases hk : p.1 = k
      · simp [dictInsert, hk, dictLookup]
      · simp [dictInsert, hk, dictLookup, ih]

theorem dictLookup_dictInsert_ne {α : Type} (d : List (String × α))
    (k : String) (v : α) (k' : String) (h : k ≠ k') :
    dictLookup (dictInsert d k v) k' = dictLookup d k' := by
  induction d with
  | nil => simp [dictInsert, dictLookup, h]
  | cons p rest ih =>
      by_cases hk : p.1 = k
      · simp [dictInsert, hk, dictLookup, h]
      · simp only [dictInsert, hk, if_false]
        by_cases hk' : p.1 = k'
        · simp [dictLookup, hk']
        · simp [dictLookup, hk', ih]

theorem dictLookup_dictUpdate_of_forall_ne {α : Type}
    (D E : List (String × α)) (k : String) (hE : ∀ p ∈ E, p.1 ≠ k) :
    dictLookup (dictUpdate D E) k = dictLookup D k := by
  induction E generalizing D with
  | nil => rfl
  | cons p E ih =>
      have hstep : dictUpdate D (p :: E) = dictUpdate (dictInsert D p.1 p.2) E := rfl
      rw [hstep, ih _ (fun q hq => hE q (List.mem_cons_of_mem _ hq))]
      exact dictLookup_dictInsert_ne D p.1 p.2 k (hE p (List.mem_cons_self _ _))

theorem mem_dictInsert {α : Type} {d : List (String × α)} {k : String}
    {v : α} {x : String × α} (hx : x ∈ dictInsert d k v) :
    x = (k, v) ∨ x ∈ d := by
  induction d with
  | nil => simpa [dictInsert] using hx
  | cons p rest ih =>
      by_cases hk : p.1 = k
      · simp only [dictInsert, hk, if_true] at hx
        rcases List.mem_cons.mp hx with h | h
        · exact Or.inl h
        · exact Or.inr (List.mem_cons_of_mem _ h)
      · simp only [dictInsert, hk, if_false] at hx
        rcases List.mem_cons.mp hx with h | h
        · exact Or.inr (h ▸ List.mem_cons_self _ _)
        · rcases ih h with h' | h'
          · exact Or.inl h'
          · exact Or.inr (List.mem_cons_of_mem _ h')

theorem keys_dictInsert_nodup {α : Type} {d : List (String × α)}
    (hnd : (d.map Prod.fst).Nodup) (k : String) (v : α) :
    ((dictInsert d k v).map Prod.fst).Nodup := by
  induction d with
  | nil => simp [dictInsert]
  | cons p rest ih =>
      rw [List.map_cons, List.nodup_cons] at hnd
      by_cases hk : p.1 = k
      · simpa [dictInsert, hk] using hnd
      · simp only [dictInsert, hk, if_false, List.map_cons, List.nodup_cons]
        refine ⟨?_, ih hnd.2⟩
        intro hc
        rcases List.mem_map.mp hc with ⟨q, hq, hq1⟩
        rcases mem_dictInsert hq with h' | h'
        · exact hk (by rw [← hq1, h'])
        · exact hnd.1 (List.mem_map.mpr ⟨q, h', hq1⟩)

theorem filter_key_eq_nil {α : Type} {d : List (String × α)} {k : String}
    (h : k ∉ d.map Prod.fst) : d.filter (fun p => p.1 == k) = [] := by
  induction d with
  | nil => rfl
  | cons p rest ih =>
      simp only [List.map_cons, List.mem_cons, not_or] at h
      have hp : (p.1 == k) = false :=
        beq_eq_false_iff_ne.mpr (fun hc => h.1 hc.symm)
      simp [List.filter_cons, hp, ih h.2]

theorem dictInsert_filter_key {α : Type} {d : List (String × α)}
    (hnd : (d.map Prod.fst).Nodup) (k : String) (v : α) :
    (dictInsert d k v).filter (fun p => p.1 == k) = [(k, v)] := by
  induction d with
  | nil => simp [dictInsert]
  | cons p rest ih =>
      rw [List.map_cons, List.nodup_cons] at hnd
      by_cases hk : p.1 = k
      · have hrest : k ∉ rest.map Prod.fst := hk ▸ hnd.1
        simp [dictInsert, hk, List.filter_cons, filter_key_eq_nil hrest]
      · have hp : (p.1 == k) = false := by simpa [beq_iff_eq] using hk
        simp [dictInsert, hk, List.filter_cons, hp, ih hnd.2]

theorem mem_filterKeys_key_ne {base : List String}
    {d : List (String × String)} {p : String × String} (bad : String)
    (hp : p ∈ dictFilterKeys d (base.filter (fun k => k ≠ bad))) :
    p.1 ≠ bad := by
  rcases List.mem_filter.mp hp with ⟨_, hkey⟩
  have hmem : p.1 ∈ base.filter (fun k => k ≠ bad) := by
    simpa [List.contains_iff_exists_mem_beq, beq_iff_eq] using hkey
  simpa using (List.mem_filter.mp hmem).2

/-! ### Claim theorems -/

/-- C1: for every consumer group `g`, source topic name `s` and suffix `x`,
a successful `changelog_topic(s, x, g)` call returns a `Topic` whose name is
exactly the string `changelog__` ++ g ++ `--` ++ s ++ `--` ++ x; the name is
a pure function of `(g, s, x)`, so repeated calls with identical inputs
(also across process restarts) always yield the same name. -/
theorem changelog_topic_name_deterministic (tm : TopicManager)
    (inspect : String → Option TopicConfig) (s x g : String)
    (S : Option (List String)) (tm' : TopicManager) (t : Topic)
    (h : (tm.changelogTopic inspect s x g S).1 = .ok (tm', t)) :
    t.name = "changelog__" ++ g ++ "--" ++ s ++ "--" ++ x := by
  simp only [TopicManager.changelogTopic] at h
  cases hc : changelogSourceConfig tm inspect s with
  | error e => rw [hc] at h; simp at h
  | ok o =>
      rw [hc] at h
      cases o with
      | none => simp at h
      | some tc =>
          simp only [Except.ok.injEq, Prod.mk.injEq] at h
          rw [← h.2]
          rfl

/-- The changelog `Topic` produced by the C1 witness call. -/
def changelogWitnessTopic : Topic :=
  ⟨"changelog__group1--orders--default", some "bytes", some "bytes",
   some "bytes", some "bytes",
   some ⟨"changelog__group1--orders--default", 2, 1,
     [("cleanup.policy", "compact")]⟩⟩

/-- The `TopicManager` state after the C1 witness call. -/
def changelogWitnessManager : TopicManager :=
  ⟨[], [("orders", [("default", changelogWitnessTopic)])]⟩

/-- C1 witness: a concrete successful call (source topic described by the
broker) yields the name `changelog__group1--orders--default`. -/
theorem changelog_topic_name_deterministic_witness :
    ((TopicManager.mk [] []).changelogTopic
        (fun _ => some ⟨"orders", 2, 1, []⟩) "orders" "default" "group1"
        none).1 = .ok (changelogWitnessManager, changelogWitnessTopic) ∧
    changelogWitnessTopic.name =
      "changelog__" ++ "group1" ++ "--" ++ "orders" ++ "--" ++ "default" :=
  ⟨by decide,
   changelog_topic_name_deterministic ⟨[], []⟩
     (fun _ => some ⟨"orders", 2, 1, []⟩) "orders" "default" "group1" none
     changelogWitnessManager changelogWitnessTopic (by decide)⟩

/-- C2 counter-evaluation: with a contract-conforming admin response that
maps the requested topic name to null (the broker lacks the topic),
`validate_topics` at level `exists` records no issue and raises nothing —
the subscript `actual_configs[topic.name]` runs before the membership test
`topic.name in actual_configs`, and with every requested name present in
the response the `"TOPIC MISSING"` branch is unreachable; at the stricter
levels the null config crashes with `AttributeError` instead of a
`TopicValidationError`. -/
theorem validate_topics_missing_topic_not_flagged :
    validateTopics (fun _ => none)
        [.config ⟨"t", 2, 1, []⟩] (some .existsLevel) = .ok () ∧
    validateTopics (fun _ => none)
        [.config ⟨"t", 2, 1, []⟩] (some .required) = .error .attributeError ∧
    validateTopics (fun _ => none)
        [.config ⟨"t", 2, 1, []⟩] (some .all) = .error .attributeError := by
  refine ⟨by decide, by decide, by decide⟩

/-- C3 counter-evaluation: a broker topic whose `extra_config` carries an
extra undeclared key (everything else matching) is flagged neither at level
`all` nor at level `required`: at level `all` the code filters the actual
topic's extra-config down to the caller-declared keys before comparing
(`actual.update_extra_config(allowed={k for k in topic.extra_config})`),
so the undeclared key is dropped rather than compared. -/
theorem validate_all_extra_key_not_flagged :
    validateTopics
        (fun _ => some ⟨"t", 2, 1, [("retention.ms", "100"), ("foo", "bar")]⟩)
        [.config ⟨"t", 2, 1, [("retention.ms", "100")]⟩]
        (some .all) = .ok () ∧
    validateTopics
        (fun _ => some ⟨"t", 2, 1, [("retention.ms", "100"), ("foo", "bar")]⟩)
        [.config ⟨"t", 2, 1, [("retention.ms", "100")]⟩]
        (some .required) = .ok () := by
  refine ⟨by decide, by decide⟩

/-- C4 counter-evaluation: when the broker's response maps the source topic
to null and the source topic was never declared on the `TopicManager`,
`changelog_topic` fails with a bare `KeyError` from
`self._topics[source_topic_name]` — not with the dedicated
`MissingTopicForChangelog` error (whose own message claims to cover the
"no Topic object" case). -/
theorem changelog_topic_undeclared_source_keyerror :
    ((TopicManager.mk [] []).changelogTopic (fun _ => none)
        "orders" "default" "group1" none).1 = .error (.keyError "orders") := by
  decide

/-- C5: every successful `changelog_topic` call, whatever the
caller-supplied `configs_to_import`, returns a `Topic` whose config carries
the extra setting `cleanup.policy = compact`: a caller's request to import
`cleanup.policy` is discarded before the source topic's settings are
filtered in, and the changelog extra-config defaults then force compaction
on. -/
theorem changelog_topic_forces_compaction (tm : TopicManager)
    (inspect : String → Option TopicConfig) (s x g : String)
    (S : Option (List String)) (tm' : TopicManager) (t : Topic)
    (h : (tm.changelogTopic inspect s x g S).1 = .ok (tm', t)) :
    ∃ cfg, t.topic_config = some cfg ∧
      dictLookup cfg.extra_config "cleanup.policy" = some "compact" := by
  simp only [TopicManager.changelogTopic] at h
  cases hc : changelogSourceConfig tm inspect s with
  | error e => rw [hc] at h; simp at h
  | ok o =>
      rw [hc] at h
      cases o with
      | none => simp at h
      | some tc =>
          simp only [Except.ok.injEq, Prod.mk.injEq] at h
          rw [← h.2]
          refine ⟨_, rfl, ?_⟩
          simp only [processTopicConfigs, topicConfigWithDefaults,
            TopicConfig.updateExtraConfigDefaults,
            TopicConfig.updateExtraConfigAllowed, Option.getD]
          rw [dictLookup_dictUpdate_of_forall_ne]
          · rfl
          · intro p hp
            exact mem_filterKeys_key_ne "cleanup.policy" hp

/-- The changelog `Topic` produced by the C5 witness call. -/
def compactionWitnessTopic : Topic :=
  ⟨"changelog__g--src--sfx", some "bytes", some "bytes", some "bytes",
   some "bytes",
   some ⟨"changelog__g--src--sfx", 4, 1,
     [("cleanup.policy", "compact"), ("retention.ms", "5")]⟩⟩

/-- The `TopicManager` state after the C5 witness call. -/
def compactionWitnessManager : TopicManager :=
  ⟨[], [("src", [("sfx", compactionWitnessTopic)])]⟩

/-- C5 witness: a caller importing `cleanup.policy` from a source topic
whose broker config sets `cleanup.policy = delete` still gets a changelog
config with `cleanup.policy = compact`. -/
theorem changelog_topic_forces_compaction_witness :
    ((TopicManager.mk [] []).changelogTopic
        (fun _ => some ⟨"src", 4, 1,
          [("cleanup.policy", "delete"), ("retention.ms", "5")]⟩)
        "src" "sfx" "g"
        (some ["cleanup.policy", "retention.ms"])).1 =
      .ok (compactionWitnessManager, compactionWitnessTopic) ∧
    (∃ cfg, compactionWitnessTopic.topic_config = some cfg ∧
      dictLookup cfg.extra_config "cleanup.policy" = some "compact") :=
  ⟨by decide,
   changelog_topic_forces_compaction ⟨[], []⟩
     (fun _ => some ⟨"src", 4, 1,
       [("cleanup.policy", "delete"), ("retention.ms", "5")]⟩)
     "src" "sfx" "g" (some ["cleanup.policy", "retention.ms"])
     compactionWitnessManager compactionWitnessTopic (by decide)⟩

/-- C6: on a record whose value is a mapping, the step appended by
`apply(fn, expand)` keeps the record when `fn` returns `None` (in-place
mutation), replaces the record's value wholesale when `fn` returns a
mapping, branches into one cloned record per element when `fn` returns a
sequence and `expand=True`, fails with `InvalidApplyResultType` for a
sequence when `expand=False`, and fails with `InvalidApplyResultType` for
any other return type. -/
theorem apply_step_contract (row : Row) (func : PyObj → PyObj)
    (expand : Bool) (hdict : row.value.isDict = true) :
    (func row.value = .pyNone →
      applyRow row func expand = .ok (.row row)) ∧
    (∀ d, func row.value = .pyDict d →
      applyRow row func expand = .ok (.row { row with value := .pyDict d })) ∧
    (∀ l, func row.value = .pyList l →
      (expand = true →
        applyRow row func expand = .ok (.rows (l.map (fun v => row.clone v)))) ∧
      (expand = false →
        applyRow row func expand = .error .invalidApplyResultType)) ∧
    ((func row.value).isDict = false → func row.value ≠ .pyNone →
      (∀ l, func row.value ≠ .pyList l) →
      applyRow row func expand = .error .invalidApplyResultType) := by
  refine ⟨?_, ?_, ?_, ?_⟩
  · intro h
    simp [applyRow, h, hdict]
  · intro d h
    simp [applyRow, h]
  · intro l h
    constructor
    · intro he
      simp [applyRow, h, he]
    · intro he
      simp [applyRow, h, he]
  · intro hnd hnn hnl
    cases hfr : func row.value with
    | pyNone => exact absurd hfr hnn
    | pyDict d => rw [hfr] at hnd; simp [PyObj.isDict] at hnd
    | pyList l => exact absurd hfr (hnl l)
    | pyBool b => simp [applyRow, hfr]
    | pyInt n => simp [applyRow, hfr]
    | pyStr s => simp [applyRow, hfr]

/-- C6 witness: on a dict-valued record, a function returning `None` keeps
the record. -/
theorem apply_step_contract_witness :
    (Row.value ⟨.pyDict [], none, 0, [], "t", 0, 0⟩).isDict = true ∧
    applyRow ⟨.pyDict [], none, 0, [], "t", 0, 0⟩ (fun _ => .pyNone) false =
      .ok (.row ⟨.pyDict [], none, 0, [], "t", 0, 0⟩) :=
  ⟨rfl,
   (apply_step_contract ⟨.pyDict [], none, 0, [], "t", 0, 0⟩
     (fun _ => .pyNone) false rfl).1 rfl⟩

/-- Registry well-formedness survives `dictInsert` with a matching name. -/
theorem wf_dictInsert {d : List (String × Topic)}
    (hwf : ∀ p ∈ d, p.2.name = p.1) {k : String} {v : Topic}
    (hv : v.name = k) : ∀ p ∈ dictInsert d k v, p.2.name = p.1 := by
  intro p hp
  rcases mem_dictInsert hp with h | h
  · rw [h]
    exact hv
  · exact hwf p h

/-- Filtering dict values by topic name agrees with filtering entries by
key, on a registry whose entries are keyed by their topic's name. -/
theorem values_filter_name {d : List (String × Topic)}
    (hwf : ∀ p ∈ d, p.2.name = p.1) (k : String) :
    (d.map Prod.snd).filter (fun t => t.name == k) =
      (d.filter (fun p => p.1 == k)).map Prod.snd := by
  induction d with
  | nil => rfl
  | cons p rest ih =>
      have hp := hwf p (List.mem_cons_self _ _)
      have hrest := fun q hq => hwf q (List.mem_cons_of_mem _ hq)
      by_cases hk : p.1 = k
      · simp [List.filter_cons, hp, hk, ih hrest]
      · have h1 : (p.2.name == k) = false := by
          rw [hp]
          exact beq_eq_false_iff_ne.mpr hk
        have h2 : (p.1 == k) = false := beq_eq_false_iff_ne.mpr hk
        simp [List.filter_cons, h1, h2, ih hrest]

/-- C7: registering a topic twice under the same final name is
last-writer-wins — afterwards the registry holds exactly one entry for that
name, it is the `Topic` returned by the second call, and the `topics`
property lists that `Topic` as the only one of that name. (Registries
reachable through `TopicManager` have unique keys and key each `Topic`
under its own name, the two well-formedness hypotheses.) -/
theorem topic_reregistration_last_writer_wins (tm : TopicManager)
    (hnd : (tm.topics.map Prod.fst).Nodup)
    (hwf : ∀ p ∈ tm.topics, p.2.name = p.1) (name : String)
    (vd1 kd1 vs1 ks1 vd2 kd2 vs2 ks2 : Option String)
    (tc1 tc2 : Option TopicConfig) (ac1 ac2 : Bool) (tm1 : TopicManager)
    (t1 : Topic) (tm2 : TopicManager) (t2 : Topic)
    (h1 : tm.topic name vd1 kd1 vs1 ks1 tc1 ac1 = (tm1, t1))
    (h2 : tm1.topic name vd2 kd2 vs2 ks2 tc2 ac2 = (tm2, t2)) :
    dictLookup tm2.topics name = some t2 ∧
    tm2.topics.filter (fun p => p.1 == name) = [(name, t2)] ∧
    tm2.topicsProp.filter (fun t => t.name == name) = [t2] := by
  simp only [TopicManager.topic, applyTopicPrefixing, Prod.mk.injEq] at h1 h2
  obtain ⟨htm1, ht1⟩ := h1
  obtain ⟨htm2, ht2⟩ := h2
  have hname1 : t1.name = name := by rw [← ht1]
  rw [ht1] at htm1
  subst htm1
  have hname2 : t2.name = name := by rw [← ht2]
  rw [ht2] at htm2
  subst htm2
  have hnd1 : ((dictInsert tm.topics name t1).map Prod.fst).Nodup :=
    keys_dictInsert_nodup hnd name t1
  have hwf1 : ∀ p ∈ dictInsert tm.topics name t1, p.2.name = p.1 :=
    wf_dictInsert hwf hname1
  have hwf2 : ∀ p ∈ dictInsert (dictInsert tm.topics name t1) name t2,
      p.2.name = p.1 :=
    wf_dictInsert hwf1 hname2
  refine ⟨dictLookup_dictInsert_self _ name _,
    dictInsert_filter_key hnd1 name _, ?_⟩
  show ((dictInsert (dictInsert tm.topics name t1) name t2).map
      Prod.snd).filter (fun t => t.name == name) = [t2]
  rw [values_filter_name hwf2 name, dictInsert_filter_key hnd1 name]
  rfl

/-- The `Topic` returned by the second registration in the C7 witness. -/
def reregWitnessTopic : Topic :=
  ⟨"t", some "json", some "json", some "bytes", some "bytes",
   some ⟨"t", 2, 1, []⟩⟩

/-- The `TopicManager` registry after the two C7 witness registrations. -/
def reregWitnessManager : TopicManager :=
  ⟨[("t", reregWitnessTopic)], []⟩

/-- C7 witness: two concrete registrations of the name `t` leave exactly
the second `Topic` registered. -/
theorem topic_reregistration_last_writer_wins_witness :
    dictLookup reregWitnessManager.topics "t" = some reregWitnessTopic ∧
    reregWitnessManager.topics.filter (fun p => p.1 == "t") =
      [("t", reregWitnessTopic)] ∧
    reregWitnessManager.topicsProp.filter (fun t => t.name == "t") =
      [reregWitnessTopic] :=
  topic_reregistration_last_writer_wins ⟨[], []⟩ (by simp) (by simp) "t"
    none none none none (some "json") (some "bytes") (some "json")
    (some "bytes") none none true true
    ⟨[("t", ⟨"t", none, none, none, none, some ⟨"t", 2, 1, []⟩⟩)], []⟩
    ⟨"t", none, none, none, none, some ⟨"t", 2, 1, []⟩⟩
    reregWitnessManager reregWitnessTopic (by decide) (by decide)

/-- C8: appending step A, cloning, then appending C only to the original
and B only to the clone gives an original that processes a record through
exactly the chain [A, C] and a clone that processes exactly [A, B]; a
further append to either pipeline leaves the other's step sequence
untouched. -/
theorem pipeline_clone_branch_independent (name : String)
    (A B C D : Row → StepRes) (r : Row) :
    ((((Pipeline.init name).apply A).apply C).functions = [A, C]) ∧
    ((((Pipeline.init name).apply A).clone.apply B).functions = [A, B]) ∧
    ((((Pipeline.init name).apply A).apply C).process r =
      processList [A, C] r) ∧
    ((((Pipeline.init name).apply A).clone.apply B).process r =
      processList [A, B] r) ∧
    (((((Pipeline.init name).apply A).apply C).apply D).functions =
      [A, C, D]) ∧
    (((((Pipeline.init name).apply A).clone.apply B).apply D).functions =
      [A, B, D]) := by
  refine ⟨rfl, rfl, rfl, rfl, rfl, rfl⟩

/-- C9: when the caller passes a non-empty `configs_to_import` set holding
`cleanup.policy`, the `discard` runs in place on the caller's own set
object, not on a defensive copy: after the call the caller's set is the
original minus `cleanup.policy` — it no longer holds `cleanup.policy` and
differs from the set passed in, observably across reuses. -/
theorem changelog_configs_to_import_mutated (tm : TopicManager)
    (inspect : String → Option TopicConfig) (s x g : String)
    (S : List String) (hne : S ≠ []) (hmem : "cleanup.policy" ∈ S) :
    (tm.changelogTopic inspect s x g (some S)).2 =
      some (S.filter (fun k => k ≠ "cleanup.policy")) ∧
    (∀ l, (tm.changelogTopic inspect s x g (some S)).2 = some l →
      "cleanup.policy" ∉ l ∧ l ≠ S) := by
  obtain ⟨a, as, rfl⟩ := List.exists_cons_of_ne_nil hne
  have hfst : ((TopicManager.changelogTopic tm inspect s x g
      (some (a :: as))).2) =
      some ((a :: as).filter (fun k => k ≠ "cleanup.policy")) := by
    simp only [TopicManager.changelogTopic, List.isEmpty_cons]
    rfl
  refine ⟨hfst, ?_⟩
  intro l hl
  rw [hfst] at hl
  have hl' : l = (a :: as).filter (fun k => k ≠ "cleanup.policy") :=
    (Option.some.injEq _ _ ▸ hl).symm
  subst hl'
  constructor
  · intro hc
    have := (List.mem_filter.mp hc).2
    simp at this
  · intro hc
    have hmem' : "cleanup.policy" ∈ (a :: as).filter
        (fun k => k ≠ "cleanup.policy") := by
      rw [hc]
      exact hmem
    have := (List.mem_filter.mp hmem').2
    simp at this

/-- C9 witness: passing the set `{cleanup.policy, retention.ms}` leaves the
caller's set holding only `retention.ms` after the call. -/
theorem changelog_configs_to_import_mutated_witness :
    ((TopicManager.mk [] []).changelogTopic (fun _ => none) "src" "sfx" "g"
        (some ["cleanup.policy", "retention.ms"])).2 =
      some ["retention.ms"] ∧
    "cleanup.policy" ∉ ["retention.ms"] ∧
    ["retention.ms"] ≠ ["cleanup.policy", "retention.ms"] :=
  have h := changelog_configs_to_import_mutated ⟨[], []⟩ (fun _ => none)
    "src" "sfx" "g" ["cleanup.policy", "retention.ms"] (by decide) (by decide)
  ⟨h.1, (h.2 _ h.1).1, (h.2 _ h.1).2⟩

/-- On a list of `Topic`s, the walrus comprehension of `get_topic_configs`
collects exactly the names of the topics with a null config. -/
theorem topicNullConfigNames_map (l : List Topic) :
    topicNullConfigNames (l.map TopicOrConfig.topic) =
      .ok (l.filterMap
        (fun t => if t.topic_config.isNone then some t.name else none)) := by
  induction l with
  | nil => rfl
  | cons t rest ih =>
      cases hcfg : t.topic_config with
      | none =>
          simp [topicNullConfigNames, ih, List.filterMap_cons, hcfg,
            Except.bind]
      | some c =>
          simp [topicNullConfigNames, ih, List.filterMap_cons, hcfg,
            Except.bind]

/-- The names of registered topics carrying a null `topic_config`. -/
def nullConfigNames (tm : TopicManager) : List String :=
  (tm.topicsProp ++ tm.changelogTopicsProp).filterMap
    (fun t => if t.topic_config.isNone then some t.name else none)

/-- C10: if any `Topic` registered on the `TopicManager` has a null
`topic_config`, then `all_topic_configs` — and hence `create_all_topics`
and `validate_all_topics` — raises a `ValueError` naming the offending
topics, rather than skipping them or returning partial results. -/
theorem all_topic_configs_raises_on_null_config (tm : TopicManager)
    (inspect : String → Option TopicConfig) (level : Option ValidationLevel)
    (t0 : Topic) (hmem : t0 ∈ tm.topicsProp ++ tm.changelogTopicsProp)
    (hnull : t0.topic_config = none) :
    tm.allTopicConfigs = .error (.valueError (nullConfigNames tm)) ∧
    t0.name ∈ nullConfigNames tm ∧
    tm.createAllTopics = .error (.valueError (nullConfigNames tm)) ∧
    tm.validateAllTopics inspect level =
      .error (.valueError (nullConfigNames tm)) := by
  have hin : t0.name ∈ nullConfigNames tm :=
    List.mem_filterMap.mpr ⟨t0, hmem, by simp [hnull]⟩
  have hA : tm.allTopicConfigs = .error (.valueError (nullConfigNames tm)) := by
    unfold TopicManager.allTopicConfigs
    cases hl : tm.topicsProp ++ tm.changelogTopicsProp with
    | nil =>
        rw [hl] at hmem
        simp at hmem
    | cons a as =>
        have hinv := topicNullConfigNames_map (a :: as)
        have hNames : nullConfigNames tm = (a :: as).filterMap
            (fun t => if t.topic_config.isNone then some t.name else none) := by
          unfold nullConfigNames
          rw [hl]
        have hin' : t0.name ∈ (a :: as).filterMap
            (fun t => if t.topic_config.isNone then some t.name else none) := by
          rw [← hNames]
          exact hin
        have hne : ((a :: as).filterMap
            (fun t => if t.topic_config.isNone then some t.name else none)).isEmpty = false := by
          cases hE : ((a :: as).filterMap
              (fun t => if t.topic_config.isNone then some t.name else none)).isEmpty with
          | false => rfl
          | true =>
              rw [List.isEmpty_iff] at hE
              rw [hE] at hin'
              simp at hin'
        rw [hNames]
        simp only [List.map_cons] at hinv ⊢
        simp only [getTopicConfigs, hinv, hne]
        rfl
  refine ⟨hA, hin, hA, ?_⟩
  unfold TopicManager.validateAllTopics
  rw [hA]

/-- The null-config `Topic` of the C10 witness manager. -/
def nullConfigWitnessTopic : Topic := ⟨"ext", none, none, none, none, none⟩

/-- The C10 witness manager: one registered topic, with no config. -/
def nullConfigWitnessManager : TopicManager :=
  ⟨[("ext", nullConfigWitnessTopic)], []⟩

/-- C10 witness: a manager holding one config-less topic named `ext` makes
`all_topic_configs`, `create_all_topics` and `validate_all_topics` all
raise `ValueError` naming `ext`. -/
theorem all_topic_configs_raises_on_null_config_witness :
    nullConfigWitnessManager.allTopicConfigs =
      .error (.valueError ["ext"]) ∧
    "ext" ∈ ["ext"] ∧
    nullConfigWitnessManager.createAllTopics =
      .error (.valueError ["ext"]) ∧
    nullConfigWitnessManager.validateAllTopics (fun _ => none)
        (some .existsLevel) = .error (.valueError ["ext"]) :=
  have h := all_topic_configs_raises_on_null_config nullConfigWitnessManager
    (fun _ => none) (some .existsLevel) nullConfigWitnessTopic (by decide)
    rfl
  ⟨h.1, h.2.1, h.2.2.1, h.2.2.2⟩

end QuixStreams

